import Mathlib

/-
Verification of the OgreInterface generation pipeline.

Shallow embedding of `OgreInterface/generate.py` and
`OgreInterface/surface_match/ionic_surface_matcher.py`.

Conventions:
 - numpy float arrays are embedded as tuples over `ℝ` (or `ℚ` where the
   source only performs exact integer/rational arithmetic on them);
 - vectors are right-nested tuples, matrices are triples of row vectors;
 - the `while` loop of `_float_gcd` is embedded with an explicit fuel
   parameter (every theorem below holds for every fuel value);
 - external collaborators that are not part of the two source files
   (pymatgen's ZSL matcher, the `Interface` object of
   `OgreInterface.surfaces`) are modelled from the specification where a
   claim needs them; those definitions carry a `Modelled from the spec`
   doc comment.
-/

namespace OgreInterface

/-! ## Basic vector types -/

abbrev V3Q := ℚ × ℚ × ℚ

abbrev M3Q := V3Q × V3Q × V3Q

abbrev V3R := ℝ × ℝ × ℝ

abbrev M3R := V3R × V3R × V3R

abbrev V2R := ℝ × ℝ

/-- A 2D basis: two in-plane row vectors. -/
abbrev B2R := V2R × V2R

/-- A 2x2 integer supercell transformation, as two rows. -/
abbrev T22 := (ℤ × ℤ) × (ℤ × ℤ)

/-! ## `SurfaceGenerator._check_oriented_cell` (generate.py lines 124-151)

The slab scale factor is an integer 3x3 matrix, embedded over `ℚ` so the
comparison against `-miller_index / min(|nonzero miller components|)`
(a rational vector) is exact. -/

def negV3Q (v : V3Q) : V3Q := (-v.1, -v.2.1, -v.2.2)

def negM3Q (m : M3Q) : M3Q := (negV3Q m.1, negV3Q m.2.1, negV3Q m.2.2)

/-- Minimum of an integer list, first element as accumulator
(`np.min`; junk value 1 on the empty list, which the source would reject). -/
def minIntList : List ℤ → ℤ
  | [] => 1
  | a :: t => t.foldl min a

/-- `np.min(np.abs(miller_index[miller_index != 0]))`. -/
def minAbsNonzero (mi : ℤ × ℤ × ℤ) : ℤ :=
  minIntList ((([mi.1, mi.2.1, mi.2.2].filter (fun k => decide (k ≠ 0))).map (fun k => |k|)))

/-- `miller_index / np.min(np.abs(miller_index[miller_index != 0]))`. -/
def normalized_miller (mi : ℤ × ℤ × ℤ) : V3Q :=
  ((mi.1 : ℚ) / (minAbsNonzero mi : ℚ),
   (mi.2.1 : ℚ) / (minAbsNonzero mi : ℚ),
   (mi.2.2 : ℚ) / (minAbsNonzero mi : ℚ))

/-- `_check_oriented_cell`: if the last row of the slab scale factor equals the
negated normalized Miller index, the whole scale factor is multiplied by `-1`
(`slab_generator.slab_scale_factor *= -1`). -/
def check_oriented_cell (ssf : M3Q) (mi : ℤ × ℤ × ℤ) : M3Q :=
  if ssf.2.2 = negV3Q (normalized_miller mi) then negM3Q ssf else ssf

/-- What the specification asserts instead: a swap of the first two basis
vectors. Defined only for comparison against `check_oriented_cell`. -/
def swap_first_two_rows (m : M3Q) : M3Q := (m.2.1, m.1, m.2.2)

/-- Determinant of a 3x3 rational matrix given by rows. -/
def det3Q (m : M3Q) : ℚ :=
  m.1.1 * (m.2.1.2.1 * m.2.2.2.2 - m.2.1.2.2 * m.2.2.2.1)
    - m.1.2.1 * (m.2.1.1 * m.2.2.2.2 - m.2.1.2.2 * m.2.2.1)
    + m.1.2.2 * (m.2.1.1 * m.2.2.2.1 - m.2.1.2.1 * m.2.2.1)

/-- Concrete Miller index used in the C5 counterexample. -/
def millerEx : ℤ × ℤ × ℤ := (0, 0, 1)

/-- Concrete slab scale factor whose last row is the negated normalized
Miller index of `millerEx`. -/
def ssfEx : M3Q := ((1, 0, 0), (0, 1, 0), (0, 0, -1))

/-! ## `SurfaceGenerator._get_reduced_basis` and `_float_gcd`
(generate.py lines 118-122 and 153-161)

The routine normalizes each row of the basis to unit length, divides by the
smallest absolute component above `0.001`, and divides by the float gcd of
the components.  All arithmetic is embedded over `ℝ`; the `while` loop of
`_float_gcd` gets an explicit fuel parameter. -/

noncomputable section ReducedBasis

open Classical

/-- `rtol` default of `_float_gcd`. -/
def rtolGcd : ℝ := 1 / 100000

/-- `atol` default of `_float_gcd`. -/
def atolGcd : ℝ := 1 / 100000000

/-- Python float `a % b` (`a - b * floor(a / b)`). -/
def fmodR (a b : ℝ) : ℝ := a - b * (⌊a / b⌋ : ℤ)

/-- The `while abs(b) > rtol * t + atol: a, b = b, a % b` loop of
`_float_gcd`, with `t = min(abs(a), abs(b))` fixed at entry and an explicit
fuel bound on the number of iterations. -/
def float_gcd_loop : ℕ → ℝ → ℝ → ℝ → ℝ
  | 0, _, a, _ => a
  | fuel + 1, t, a, b =>
      if |b| > rtolGcd * t + atolGcd then float_gcd_loop fuel t b (fmodR a b) else a

/-- `_float_gcd(a, b)`. -/
def float_gcd (fuel : ℕ) (a b : ℝ) : ℝ := float_gcd_loop fuel (min |a| |b|) a b

/-- Squared Euclidean norm of a row. -/
def normSq3 (v : V3R) : ℝ := v.1 ^ 2 + v.2.1 ^ 2 + v.2.2 ^ 2

/-- `np.linalg.norm` of a row. -/
def vnorm3 (v : V3R) : ℝ := Real.sqrt (normSq3 v)

/-- Componentwise division of a row by a scalar. -/
def divV3 (v : V3R) (c : ℝ) : V3R := (v.1 / c, v.2.1 / c, v.2.2 / c)

/-- Componentwise scaling of a row by a scalar. -/
def smulV3 (c : ℝ) (v : V3R) : V3R := (c * v.1, c * v.2.1, c * v.2.2)

/-- `abs_b[abs_b > 0.001]`: keep the list entries strictly above the cutoff. -/
def filterGt (c : ℝ) : List ℝ → List ℝ
  | [] => []
  | a :: t => if c < a then a :: filterGt c t else filterGt c t

/-- `.min()` of a float list (junk value 0 on the empty list, on which the
source would raise). -/
def minRList : List ℝ → ℝ
  | [] => 0
  | a :: t => t.foldl min a

/-- `abs_b[abs_b > 0.001].min()` for a row. -/
def minAbsAboveTol (v : V3R) : ℝ := minRList (filterGt (1 / 1000) [|v.1|, |v.2.1|, |v.2.2|])

/-- `basis /= np.linalg.norm(basis, axis=1)[:, None]`, for one row. -/
def rowUnit (v : V3R) : V3R := divV3 v (vnorm3 v)

/-- `basis[i] /= abs_b[abs_b > 0.001].min()`, applied to the unit row. -/
def rowScaled (v : V3R) : V3R := divV3 (rowUnit v) (minAbsAboveTol (rowUnit v))

/-- `reduce(self._float_gcd, basis[i])` over the three components of a row. -/
def rowGcd (fuel : ℕ) (v : V3R) : ℝ := float_gcd fuel (float_gcd fuel v.1 v.2.1) v.2.2

/-- `_get_reduced_basis`, for one row: normalize, divide by the smallest
absolute component above 0.001, divide by `abs` of the float gcd. -/
def get_reduced_row (fuel : ℕ) (v : V3R) : V3R :=
  divV3 (rowScaled v) |rowGcd fuel (rowScaled v)|

/-- `_get_reduced_basis` on a 3x3 basis: the three rows are processed
independently. -/
def get_reduced_basis (fuel : ℕ) (B : M3R) : M3R :=
  (get_reduced_row fuel B.1, get_reduced_row fuel B.2.1, get_reduced_row fuel B.2.2)

/-- Determinant of a 3x3 real matrix given by rows. -/
def det3R (m : M3R) : ℝ :=
  m.1.1 * (m.2.1.2.1 * m.2.2.2.2 - m.2.1.2.2 * m.2.2.2.1)
    - m.1.2.1 * (m.2.1.1 * m.2.2.2.2 - m.2.1.2.2 * m.2.2.1)
    + m.1.2.2 * (m.2.1.1 * m.2.2.2.1 - m.2.1.2.1 * m.2.2.1)

/-- Determinant of the (unique, for invertible `B`) linear transform `T` with
`T * B = get_reduced_basis fuel B`: it equals `det (reduced) / det B`.
The transform is unimodular iff this value is `1` or `-1`. -/
def reductionTransformDet (fuel : ℕ) (B : M3R) : ℝ :=
  det3R (get_reduced_basis fuel B) / det3R B

/-- Row hypotheses under which `_get_reduced_basis` is well defined on a row:
the row is nonzero, the filtered minimum used as divisor is positive, and the
float gcd used as divisor is nonzero. -/
def RowOk (fuel : ℕ) (v : V3R) : Prop :=
  v ≠ (0, 0, 0) ∧ 0 < minAbsAboveTol (rowUnit v) ∧ rowGcd fuel (rowScaled v) ≠ 0

/-- Concrete basis (`2 * identity`) used for the C7 counterexample and
witness. -/
def basisEx : M3R := ((2, 0, 0), (0, 2, 0), (0, 0, 2))

/-- The identity 3x3 real matrix. -/
def idM3R : M3R := ((1, 0, 0), (0, 1, 0), (0, 0, 1))

end ReducedBasis

/-! ## Epitaxial lattice matching (`InterfaceGenerator`, generate.py 269-483)

The matcher itself is pymatgen's `ZSLGenerator`, which is not part of the
two source files; it is modelled from the specification (section 4.5).
`_generate_interface_props` and the `__init__` handling of an empty match
list are embedded from the source. -/

noncomputable section ZslMatching

/-- Determinant of a 2x2 integer transformation. -/
def detT (t : T22) : ℤ := t.1.1 * t.2.2 - t.1.2 * t.2.1

/-- Apply a 2x2 integer supercell transformation to a 2D basis (rows). -/
def applyT (t : T22) (b : B2R) : B2R :=
  (((t.1.1 : ℝ) * b.1.1 + (t.1.2 : ℝ) * b.2.1,
    (t.1.1 : ℝ) * b.1.2 + (t.1.2 : ℝ) * b.2.2),
   ((t.2.1 : ℝ) * b.1.1 + (t.2.2 : ℝ) * b.2.1,
    (t.2.1 : ℝ) * b.1.2 + (t.2.2 : ℝ) * b.2.2))

/-- Unsigned area spanned by a 2D basis (absolute cross product). -/
def areaB (b : B2R) : ℝ := |b.1.1 * b.2.2 - b.1.2 * b.2.1|

/-- Length of an in-plane vector. -/
def vlen2 (v : V2R) : ℝ := Real.sqrt (v.1 ^ 2 + v.2 ^ 2)

/-- Interior angle of a 2D basis (`arccos` of the normalized dot product). -/
def basisAngle (b : B2R) : ℝ :=
  Real.arccos ((b.1.1 * b.2.1 + b.1.2 * b.2.2) / (vlen2 b.1 * vlen2 b.2))

/-- One lattice match as consumed by `_generate_interface_props`: the two
integer supercell transformations and the two transformed supercell bases. -/
structure ZslMatch where
  film_transformation : T22
  substrate_transformation : T22
  film_sl_vectors : B2R
  substrate_sl_vectors : B2R

/-- Tolerances of the matcher, as passed by `InterfaceGenerator.__init__` to
`ZSLGenerator`. -/
structure ZslParams where
  max_area : ℝ
  area_tol : ℝ
  length_tol : ℝ
  angle_tol : ℝ

/-- Modelled from the spec: acceptance condition of the Zur-McGill epitaxial
lattice matcher (pymatgen's `ZSLGenerator`, called by
`_generate_interface_props` but not part of the source files).  Per
specification section 4.5: both integer transformations have determinant
magnitude between 1 and `max_area / primitive_area`; the stored supercell
vectors are the transforms applied to the primitive bases; and the pair is
accepted iff the area mismatch, the two per-axis length mismatches and the
angle mismatch are within the respective tolerances. -/
def IsZslMatch (p : ZslParams) (filmB subB : B2R) (m : ZslMatch) : Prop :=
  1 ≤ |detT m.film_transformation| ∧
  (|detT m.film_transformation| : ℝ) ≤ p.max_area / areaB filmB ∧
  1 ≤ |detT m.substrate_transformation| ∧
  (|detT m.substrate_transformation| : ℝ) ≤ p.max_area / areaB subB ∧
  m.film_sl_vectors = applyT m.film_transformation filmB ∧
  m.substrate_sl_vectors = applyT m.substrate_transformation subB ∧
  |areaB m.film_sl_vectors / areaB m.substrate_sl_vectors - 1| ≤ p.area_tol ∧
  |vlen2 m.film_sl_vectors.1 / vlen2 m.substrate_sl_vectors.1 - 1| ≤ p.length_tol ∧
  |vlen2 m.film_sl_vectors.2 / vlen2 m.substrate_sl_vectors.2 - 1| ≤ p.length_tol ∧
  |basisAngle m.film_sl_vectors / basisAngle m.substrate_sl_vectors - 1| ≤ p.angle_tol

/-- `np.eye(3)` with the upper-left 2x2 block replaced by the given
transformation (`film_3x3_transformations[:, :2, :2] = film_transformations`). -/
def embed3 (t : T22) : M3R :=
  (((t.1.1 : ℝ), (t.1.2 : ℝ), 0), ((t.2.1 : ℝ), (t.2.2 : ℝ), 0), (0, 0, 1))

/-- The data bundle returned by `_generate_interface_props` in the non-empty
case (generate.py lines 475-483). -/
structure InterfaceProps where
  film_sl_vecs : List B2R
  sub_sl_vecs : List B2R
  match_area : List ℝ
  film_transformations : List M3R
  substrate_transformations : List M3R

/-- `_generate_interface_props`: given the match list produced by the ZSL
matcher, return `none` when it is empty, otherwise the stacked per-match
arrays. -/
def generate_interface_props (ml : List ZslMatch) : Option InterfaceProps :=
  match ml with
  | [] => none
  | _ :: _ =>
      some
        { film_sl_vecs := ml.map (fun m => m.film_sl_vectors)
          sub_sl_vecs := ml.map (fun m => m.substrate_sl_vectors)
          match_area := ml.map (fun m => areaB m.film_sl_vectors)
          film_transformations := ml.map (fun m => embed3 m.film_transformation)
          substrate_transformations := ml.map (fun m => embed3 m.substrate_transformation) }

/-- The part of `InterfaceGenerator.__init__` state relevant to no-match
signaling: `interface_output` is stored, and the derived quantities are only
computed in the non-`None` branch. -/
structure InterfaceGenState where
  interface_output : Option InterfaceProps
  match_area : Option (List ℝ)

/-- `InterfaceGenerator.__init__` after the type guards: store the output of
`_generate_interface_props`; when it is `None` skip the derived fields
(the `pass` branch).  The function is total: construction always completes. -/
def interface_generator_init (ml : List ZslMatch) : InterfaceGenState :=
  let out := generate_interface_props ml
  { interface_output := out
    match_area := out.map (fun props => props.match_area) }

/-- Concrete tolerances for the C1 witness (the `__init__` defaults with
`max_area = 500`). -/
def zslParamsEx : ZslParams :=
  { max_area := 500, area_tol := 1 / 100, length_tol := 1 / 100, angle_tol := 1 / 100 }

/-- Concrete tolerances for the C2 witness: `max_area` below the primitive
cell area. -/
def zslParamsSmall : ZslParams :=
  { max_area := 1 / 2, area_tol := 1 / 100, length_tol := 1 / 100, angle_tol := 1 / 100 }

/-- The identity 2D basis, used as both primitive bases in the witnesses. -/
def idB2R : B2R := ((1, 0), (0, 1))

/-- The identity 2x2 integer transformation. -/
def idT22 : T22 := ((1, 0), (0, 1))

/-- Concrete match for the C1 witness: identity transforms on identity
bases. -/
def zslMatchEx : ZslMatch :=
  { film_transformation := idT22
    substrate_transformation := idT22
    film_sl_vectors := idB2R
    substrate_sl_vectors := idB2R }

end ZslMatching

/-! ## Interface deduplication and sorting (`generate_interfaces`,
generate.py lines 585-657, with `_find_exact_matches` lines 502-536)

The generated `Interface` objects are abstract values of a type `α`; the
attributes the pipeline reads are passed as functions:
`size` (`len(interface)`), `key` (the rounded, re-sorted fractional
coordinate/species array used for exact matching), `eqv` (the
`StructureMatcher` equivalence of `_is_equal`) and `area` (the in-plane
area of the interface lattice, the `np.argsort` key). -/

section Dedup

variable {α K : Type} [DecidableEq K]

/-- The boolean equality row of `x` against the group `g`
(one row of the `equal_coords` matrix of `_find_exact_matches`). -/
def eqRow (key : α → K) (g : List α) (x : α) : List Bool :=
  g.map (fun b => decide (key x = key b))

/-- First element of `g` at a position where the boolean row holds
(`np.min(np.where(row))` composed with indexing). -/
def firstMatch : List α → List Bool → Option α
  | [], _ => none
  | _ :: _, [] => none
  | a :: as, b :: bs => if b then some a else firstMatch as bs

/-- Lexicographic order on boolean rows, `false < true`
(the row order used by `np.unique(..., axis=0)`). -/
def rowLeB : List Bool → List Bool → Bool
  | [], _ => true
  | _ :: _, [] => false
  | a :: as, b :: bs => (!a && b) || (a == b && rowLeB as bs)

/-- `np.unique(equal_coords, axis=0)`: the distinct equality rows, sorted
lexicographically. -/
def uniqueRows (key : α → K) (g : List α) : List (List Bool) :=
  List.insertionSort (fun r s => rowLeB r s = true) ((g.map (eqRow key g)).dedup)

/-- `_find_exact_matches` on one size group: for each distinct equality row,
keep the group member at the smallest index where the row holds. -/
def find_exact_matches (key : α → K) (g : List α) : List α :=
  (uniqueRows key g).filterMap (firstMatch g)

/-- `np.unique(interface_sizes)`: the distinct sizes, ascending. -/
def sizesSorted (size : α → ℕ) (xs : List α) : List ℕ :=
  List.insertionSort (fun a b => a ≤ b) ((xs.map size).dedup)

/-- `possible_alike_strucs`: for each distinct size (ascending), the
sublist of interfaces with that size, in original order. -/
def sizeGroups (size : α → ℕ) (xs : List α) : List (List α) :=
  (sizesSorted size xs).map (fun s => xs.filter (fun x => decide (size x = s)))

/-- The interface list after the per-size-group exact-match reduction
(the `interfaces.extend(reduced_strucs)` loop). -/
def after_exact (size : α → ℕ) (key : α → K) (xs : List α) : List α :=
  ((sizeGroups size xs).map (find_exact_matches key)).flatten

/-- The `StructureMatcher` deduplication: index `i` is deleted iff it is the
smaller member of some equivalent pair `(i, j)`, `i < j`
(`to_delete = [np.min(pair) ...]`); equivalently, an element is kept iff no
later element is equivalent to it. -/
def keep_unique (eqv : α → α → Bool) : List α → List α
  | [] => []
  | x :: rest =>
      if rest.any (fun y => eqv x y) then keep_unique eqv rest
      else x :: keep_unique eqv rest

/-- `generate_interfaces` deduplication and sorting (after the `Interface`
objects have been built): exact-match reduction per size group,
`StructureMatcher` deduplication, then `np.argsort` on the areas (a stable
sort by area: numpy falls back to a stable insertion sort at the list sizes
that reach it, and ties only matter there). -/
def generate_interfaces (size : α → ℕ) (key : α → K) (eqv : α → α → Bool)
    (area : α → ℚ) (xs : List α) : List α :=
  List.insertionSort (fun a b => area a ≤ area b)
    (keep_unique eqv (after_exact size key xs))

/-- The composite sort key asserted by the specification (section 4.6):
lexicographic on (area, max linear strain magnitude, angle strain).
Defined only for comparison against the source's area-only sort. -/
def composite_key_le (area maxStrain angleStrain : α → ℚ) (a b : α) : Prop :=
  area a < area b ∨
    (area a = area b ∧
      (maxStrain a < maxStrain b ∨
        (maxStrain a = maxStrain b ∧ angleStrain a ≤ angleStrain b)))

end Dedup

/-- Concrete interface list for the C3 witness: elements `0..3` of `Fin 4`,
equivalence given by parity. -/
def xsW : List (Fin 4) := [0, 1, 2, 3]

/-- Sizes for the C3 witness (all equal). -/
def sizeW : Fin 4 → ℕ := fun _ => 0

/-- Exact-match keys for the C3 witness (all distinct). -/
def keyW : Fin 4 → Fin 4 := fun i => i

/-- Structure-matcher equivalence for the C3 witness: equal parity. -/
def eqvW : Fin 4 → Fin 4 → Bool := fun a b => decide (a.val % 2 = b.val % 2)

/-- Areas for the C3 witness. -/
def areaW : Fin 4 → ℚ := fun i => (i.val : ℚ)

/-- Concrete interface list for the C4 counterexample. -/
def xsX : List (Fin 2) := [0, 1]

/-- Sizes for the C4 counterexample (distinct, so each size group is a
singleton). -/
def sizeX : Fin 2 → ℕ := fun i => i.val

/-- Keys for the C4 counterexample. -/
def keyX : Fin 2 → Fin 2 := fun i => i

/-- Equivalence for the C4 counterexample: no two interfaces equivalent. -/
def eqvX : Fin 2 → Fin 2 → Bool := fun _ _ => false

/-- Areas for the C4 counterexample: a tie. -/
def areaX : Fin 2 → ℚ := fun _ => 5

/-- Max linear strain magnitudes for the C4 counterexample: decreasing. -/
def strainX : Fin 2 → ℚ := fun i => if i = 0 then 2 else 1

/-- Angle strains for the C4 counterexample. -/
def angleStrainX : Fin 2 → ℚ := fun _ => 0

/-! ## `IonicSurfaceMatcher` state (ionic_surface_matcher.py lines 18-48,
221-250) and the `Interface` film shift

`Interface` lives in `OgreInterface.surfaces`, which is not part of the
source files; the fields the matcher reads and its in-plane film shift are
modelled from the specification ("immutable once built except for explicit
in-plane rigid shifts of the film sublattice").  Structures themselves are
abstract values of a type `σ`. -/

section Matcher

variable {σ : Type}

/-- Modelled from the spec: the `Interface` state visible to the matcher —
its orthogonal film structure, its substrate structure, and the in-plane
fractional shift currently applied to the film sublattice. -/
structure InterfaceState (σ : Type) where
  orthogonal_film_structure : σ
  substrate_structure : σ
  film_shift : ℚ × ℚ

/-- Modelled from the spec: `Interface.shift_film_inplane(x, y, fractional)`,
an explicit in-plane rigid shift of the film sublattice. -/
def shift_film_inplane (x_shift y_shift : ℚ) (s : InterfaceState σ) : InterfaceState σ :=
  { s with film_shift := (s.film_shift.1 + x_shift, s.film_shift.2 + y_shift) }

/-- Modelled from the spec: `Interface.get_interface(orthogonal=True,
return_atoms=True)` — a snapshot of the current interface configuration
(structure plus current film shift); it does not mutate the interface. -/
def get_interface_atoms (s : InterfaceState σ) : σ × (ℚ × ℚ) :=
  (s.orthogonal_film_structure, s.film_shift)

/-- `IonicSurfaceMatcher._get_shifted_atoms`: for each shift, apply it to the
film, snapshot the atoms, then apply the negated shift; return the snapshots
and the final interface state. -/
def get_shifted_atoms : List (ℚ × ℚ) → InterfaceState σ → List (σ × (ℚ × ℚ)) × InterfaceState σ
  | [], s => ([], s)
  | sh :: rest, s =>
      let s1 := shift_film_inplane sh.1 sh.2 s
      let a := get_interface_atoms s1
      let s2 := shift_film_inplane (-sh.1) (-sh.2) s1
      let res := get_shifted_atoms rest s2
      (a :: res.1, res.2)

/-- The `IonicSurfaceMatcher` state: the interface it holds plus the fields
assigned in `__init__` that later operations read or write. -/
structure MatcherState (σ : Type) where
  held_interface : InterfaceState σ
  sub_part : σ
  film_part : σ
  opt_xy_shift : ℚ × ℚ
  z_pes_data : Option (List ℚ)

/-- `IonicSurfaceMatcher.__init__` (lines 36-41): both `film_part` and
`sub_part` are assigned `self.interface._orthogonal_film_structure`. -/
def ionic_surface_matcher_init (iface : InterfaceState σ) : MatcherState σ :=
  { held_interface := iface
    film_part := iface.orthogonal_film_structure
    sub_part := iface.orthogonal_film_structure
    opt_xy_shift := (0, 0)
    z_pes_data := none }

/-- `get_optmized_structure`: shifts the held interface's film by
`opt_xy_shift`. -/
def get_optmized_structure (m : MatcherState σ) : MatcherState σ :=
  { m with held_interface :=
      shift_film_inplane m.opt_xy_shift.1 m.opt_xy_shift.2 m.held_interface }

/-- `_get_shifted_atoms` lifted to the matcher state (the method operates on
`self.interface`). -/
def matcher_get_shifted_atoms (shifts : List (ℚ × ℚ)) (m : MatcherState σ) :
    List (σ × (ℚ × ℚ)) × MatcherState σ :=
  let r := get_shifted_atoms shifts m.held_interface
  (r.1, { m with held_interface := r.2 })

/-- `run_surface_matching`, restricted to its state effects: compute the
shifted-atoms list and fill `z_pes_data` on first use. -/
def run_surface_matching (shifts : List (ℚ × ℚ)) (m : MatcherState σ) : MatcherState σ :=
  let r := matcher_get_shifted_atoms shifts m
  { r.2 with z_pes_data :=
      match r.2.z_pes_data with
      | none => some (r.1.map (fun a => a.2.1))
      | some d => some d }

end Matcher

/-! ## `SurfaceGenerator._generate_slabs` termination selection
(generate.py lines 216-221)

The pymatgen `SlabGenerator` results are abstract: `get_slabs_result` is the
slab list returned by `sg.get_slabs(tol=0.25)` (one per enumerated
termination), `get_slab` maps a shift to `sg.get_slab(shift=...)`, and
`surface_of` is the per-slab reduction loop body producing a `Surface`. -/

/-- The branch on `generate_all` followed by the per-slab `Surface`
construction loop. -/
def generate_slabs {β γ : Type} (generate_all : Bool) (get_slabs_result : List β)
    (get_slab : ℚ → β) (possible_shifts : List ℚ) (surface_of : β → γ) : List γ :=
  (if generate_all then get_slabs_result
   else [get_slab (possible_shifts.headD 0)]).map surface_of

/-- Concrete `get_slab` for the C10 witness. -/
def slabOfW : ℚ → ℕ := fun _ => 7

/-- Concrete `surface_of` for the C10 witness. -/
def surfaceOfW : ℕ → ℕ := fun n => n + 1

/-! ## Strain and angle-difference pipelines (`_get_strain`,
`_get_angle_diff`, generate.py lines 339-374)

The per-match supercell vectors are 3D rows; the pipelines mirror the
vectorized einsum dataflow of the source: norms are computed for all matches
first, then combined elementwise. -/

noncomputable section Strain

/-- The supercell vectors of one match as stored in `film_sl_vecs` /
`sub_sl_vecs`. -/
structure MatchVectors where
  film_a : V3R
  film_b : V3R
  sub_a : V3R
  sub_b : V3R

/-- Dot product of 3D rows. -/
def dot3R (a b : V3R) : ℝ := a.1 * b.1 + a.2.1 * b.2.1 + a.2.2 * b.2.2

/-- `self._film_norms`: per-match norms of the two film supercell vectors. -/
def film_norms (ms : List MatchVectors) : List (ℝ × ℝ) :=
  ms.map (fun m => (vnorm3 m.film_a, vnorm3 m.film_b))

/-- `self._sub_norms`. -/
def sub_norms (ms : List MatchVectors) : List (ℝ × ℝ) :=
  ms.map (fun m => (vnorm3 m.sub_a, vnorm3 m.sub_b))

/-- `_get_strain`: elementwise `film_norm / sub_norm - 1` for the two axes,
stacked with `np.c_`. -/
def get_strain (ms : List MatchVectors) : List (ℝ × ℝ) :=
  List.zipWith (fun f s => (f.1 / s.1 - 1, f.2 / s.2 - 1)) (film_norms ms) (sub_norms ms)

/-- `_get_angle(a, b)`: `arccos` of the normalized dot product. -/
def vec_angle (a b : V3R) : ℝ := Real.arccos (dot3R a b / (vnorm3 a * vnorm3 b))

/-- `_get_angle_diff`: elementwise `film_angle / sub_angle - 1`. -/
def get_angle_diff (ms : List MatchVectors) : List ℝ :=
  List.zipWith (fun fa sa => fa / sa - 1)
    (ms.map (fun m => vec_angle m.film_a m.film_b))
    (ms.map (fun m => vec_angle m.sub_a m.sub_b))

/-- The per-match linear strain as the specification states it: each film
supercell vector length divided by the corresponding substrate supercell
vector length, minus one. -/
def spec_linear_strain (m : MatchVectors) : ℝ × ℝ :=
  (vnorm3 m.film_a / vnorm3 m.sub_a - 1, vnorm3 m.film_b / vnorm3 m.sub_b - 1)

/-- The per-match angle strain as the specification states it: film basis
interior angle divided by substrate basis interior angle, minus one. -/
def spec_angle_strain (m : MatchVectors) : ℝ :=
  vec_angle m.film_a m.film_b / vec_angle m.sub_a m.sub_b - 1

end Strain

/-! ## Theorems -/

/-- Evaluation of the normalized Miller index at the concrete `(0,0,1)`. -/
theorem normalized_millerEx_eval : normalized_miller millerEx = ((0 : ℚ), 0, 1) := by
  have hm : minAbsNonzero (0, 0, 1) = 1 := by decide
  simp only [normalized_miller, millerEx, hm]
  norm_num

/-- Claim C5 counterexample: at a concrete left-handed slab scale factor
(last row the negated normalized Miller index of `(0,0,1)`), the correction
`_check_oriented_cell` actually applies differs from a swap of the first two
basis vectors — the code negates the whole matrix instead. -/
theorem check_oriented_cell_is_not_swap :
    check_oriented_cell ssfEx millerEx ≠ swap_first_two_rows ssfEx ∧
    check_oriented_cell ssfEx millerEx = negM3Q ssfEx := by
  have hcond : ssfEx.2.2 = negV3Q (normalized_miller millerEx) := by
    rw [normalized_millerEx_eval]; decide
  have hcheck : check_oriented_cell ssfEx millerEx = negM3Q ssfEx := by
    unfold check_oriented_cell
    rw [if_pos hcond]
  refine ⟨?_, hcheck⟩
  rw [hcheck]
  decide

/-- Claim C5 (amended): whenever the slab scale factor's third basis vector
equals the negated scaled Miller-index normal, the correction applied is
negation of all three basis vectors (the scale factor is multiplied by -1),
after which the third basis vector equals the positively scaled Miller-index
normal and the determinant changes sign (restoring right-handedness when the
transform was left-handed). -/
theorem check_oriented_cell_negates (ssf : M3Q) (mi : ℤ × ℤ × ℤ)
    (h : ssf.2.2 = negV3Q (normalized_miller mi)) :
    check_oriented_cell ssf mi = negM3Q ssf ∧
    (check_oriented_cell ssf mi).2.2 = normalized_miller mi ∧
    det3Q (check_oriented_cell ssf mi) = -det3Q ssf := by
  have hcond : check_oriented_cell ssf mi = negM3Q ssf := by
    unfold check_oriented_cell
    rw [if_pos h]
  refine ⟨hcond, ?_, ?_⟩
  · rw [hcond]
    show negV3Q ssf.2.2 = normalized_miller mi
    rw [h]
    obtain ⟨a, b, c⟩ := normalized_miller mi
    simp [negV3Q]
  · rw [hcond]
    obtain ⟨⟨a1, a2, a3⟩, ⟨b1, b2, b3⟩, ⟨c1, c2, c3⟩⟩ := ssf
    simp only [negM3Q, negV3Q, det3Q]
    ring

/-- Claim C5 witness: the amended statement instantiated at the concrete
scale factor and Miller index of the counterexample. -/
theorem check_oriented_cell_negates_witness :
    ssfEx.2.2 = negV3Q (normalized_miller millerEx) ∧
    (check_oriented_cell ssfEx millerEx = negM3Q ssfEx ∧
      (check_oriented_cell ssfEx millerEx).2.2 = normalized_miller millerEx ∧
      det3Q (check_oriented_cell ssfEx millerEx) = -det3Q ssfEx) :=
  ⟨by rw [normalized_millerEx_eval]; decide,
   check_oriented_cell_negates ssfEx millerEx (by rw [normalized_millerEx_eval]; decide)⟩

/-- The gcd loop returns its first argument when the loop condition fails. -/
theorem float_gcd_loop_stop (fuel : ℕ) (t a b : ℝ)
    (h : ¬ |b| > rtolGcd * t + atolGcd) : float_gcd_loop fuel t a b = a := by
  cases fuel <;> simp [float_gcd_loop, h]

/-- One iteration of the gcd loop. -/
theorem float_gcd_loop_step (fuel : ℕ) (t a b : ℝ)
    (h : |b| > rtolGcd * t + atolGcd) :
    float_gcd_loop (fuel + 1) t a b = float_gcd_loop fuel t b (fmodR a b) := by
  simp [float_gcd_loop, h]

/-- `_float_gcd(1, 0) = 1` for every fuel. -/
theorem float_gcd_one_zero (fuel : ℕ) : float_gcd fuel 1 0 = 1 := by
  rw [float_gcd]
  apply float_gcd_loop_stop
  rw [abs_zero, abs_one, min_eq_right zero_le_one]
  norm_num [rtolGcd, atolGcd]

/-- `_float_gcd(0, 0) = 0` for every fuel. -/
theorem float_gcd_zero_zero (fuel : ℕ) : float_gcd fuel 0 0 = 0 := by
  rw [float_gcd]
  apply float_gcd_loop_stop
  rw [abs_zero, min_self]
  norm_num [rtolGcd, atolGcd]

/-- `_float_gcd(0, 1) = 1` whenever at least one loop iteration is
available. -/
theorem float_gcd_zero_one (fuel : ℕ) : float_gcd (fuel + 1) 0 1 = 1 := by
  rw [float_gcd]
  rw [abs_zero, abs_one, min_eq_left zero_le_one]
  rw [float_gcd_loop_step fuel 0 0 1 (by rw [abs_one]; norm_num [rtolGcd, atolGcd])]
  have hfmod : fmodR 0 1 = 0 := by simp [fmodR]
  rw [hfmod]
  apply float_gcd_loop_stop
  rw [abs_zero]
  norm_num [rtolGcd, atolGcd]

/-- Positivity of the squared norm of a nonzero row. -/
theorem normSq3_pos (v : V3R) (h : v ≠ ((0 : ℝ), 0, 0)) : 0 < normSq3 v := by
  obtain ⟨x, y, z⟩ := v
  simp only [normSq3]
  rcases lt_or_eq_of_le (by positivity : (0 : ℝ) ≤ x ^ 2 + y ^ 2 + z ^ 2) with h1 | h1
  · exact h1
  · exfalso
    apply h
    have hx : x = 0 := by nlinarith [sq_nonneg x, sq_nonneg y, sq_nonneg z]
    have hy : y = 0 := by nlinarith [sq_nonneg x, sq_nonneg y, sq_nonneg z]
    have hz : z = 0 := by nlinarith [sq_nonneg x, sq_nonneg y, sq_nonneg z]
    simp [hx, hy, hz]

/-- Positivity of the norm of a nonzero row. -/
theorem vnorm3_pos (v : V3R) (h : v ≠ ((0 : ℝ), 0, 0)) : 0 < vnorm3 v :=
  Real.sqrt_pos.mpr (normSq3_pos v h)

/-- The row norm scales with nonnegative scalars. -/
theorem vnorm3_smul (c : ℝ) (hc : 0 ≤ c) (v : V3R) :
    vnorm3 (smulV3 c v) = c * vnorm3 v := by
  have h1 : normSq3 (smulV3 c v) = c ^ 2 * normSq3 v := by
    simp only [normSq3, smulV3]; ring
  rw [vnorm3, h1, Real.sqrt_mul (sq_nonneg c), Real.sqrt_sq hc, vnorm3]

/-- Componentwise division is scaling by the inverse. -/
theorem divV3_eq_smul (u : V3R) (c : ℝ) : divV3 u c = smulV3 c⁻¹ u := by
  obtain ⟨x, y, z⟩ := u
  simp [divV3, smulV3, div_eq_inv_mul]

/-- Composition of row scalings. -/
theorem smulV3_smulV3 (a b : ℝ) (v : V3R) :
    smulV3 a (smulV3 b v) = smulV3 (a * b) v := by
  obtain ⟨x, y, z⟩ := v
  simp [smulV3, mul_assoc]

/-- The unit row of a positively scaled row is the unit row itself: the
normalization step erases positive scalings. -/
theorem rowUnit_smul (c : ℝ) (hc : 0 < c) (v : V3R) :
    rowUnit (smulV3 c v) = rowUnit v := by
  rw [rowUnit, rowUnit, vnorm3_smul c hc.le v]
  obtain ⟨x, y, z⟩ := v
  simp only [smulV3, divV3]
  rw [mul_div_mul_left _ _ (ne_of_gt hc), mul_div_mul_left _ _ (ne_of_gt hc),
    mul_div_mul_left _ _ (ne_of_gt hc)]

/-- The row reduction depends only on the unit row, hence is invariant under
positive scalings of its input. -/
theorem get_reduced_row_smul (fuel : ℕ) (c : ℝ) (hc : 0 < c) (v : V3R) :
    get_reduced_row fuel (smulV3 c v) = get_reduced_row fuel v := by
  rw [get_reduced_row, get_reduced_row, rowScaled, rowScaled, rowUnit_smul c hc]

/-- On a well-behaved row, the row reduction is a positive scaling of the
row. -/
theorem get_reduced_row_scaling (fuel : ℕ) (v : V3R) (h : RowOk fuel v) :
    ∃ c : ℝ, 0 < c ∧ get_reduced_row fuel v = smulV3 c v := by
  obtain ⟨hv, hm, hg⟩ := h
  have hn : 0 < vnorm3 v := vnorm3_pos v hv
  have hgabs : 0 < |rowGcd fuel (rowScaled v)| := abs_pos.mpr hg
  refine ⟨|rowGcd fuel (rowScaled v)|⁻¹ *
    ((minAbsAboveTol (rowUnit v))⁻¹ * (vnorm3 v)⁻¹), by positivity, ?_⟩
  calc get_reduced_row fuel v
      = smulV3 (|rowGcd fuel (rowScaled v)|⁻¹) (rowScaled v) := by
        rw [get_reduced_row, divV3_eq_smul]
    _ = smulV3 (|rowGcd fuel (rowScaled v)|⁻¹)
          (smulV3 ((minAbsAboveTol (rowUnit v))⁻¹) (rowUnit v)) := by
        rw [rowScaled, divV3_eq_smul]
    _ = smulV3 (|rowGcd fuel (rowScaled v)|⁻¹)
          (smulV3 ((minAbsAboveTol (rowUnit v))⁻¹) (smulV3 (vnorm3 v)⁻¹ v)) := by
        rw [rowUnit, divV3_eq_smul]
    _ = smulV3 (|rowGcd fuel (rowScaled v)|⁻¹ *
          ((minAbsAboveTol (rowUnit v))⁻¹ * (vnorm3 v)⁻¹)) v := by
        rw [smulV3_smulV3, smulV3_smulV3, mul_assoc]

/-- On a well-behaved row, the row reduction is idempotent. -/
theorem get_reduced_row_idem (fuel : ℕ) (v : V3R) (h : RowOk fuel v) :
    get_reduced_row fuel (get_reduced_row fuel v) = get_reduced_row fuel v := by
  obtain ⟨c, hc, hcv⟩ := get_reduced_row_scaling fuel v h
  rw [hcv, get_reduced_row_smul fuel c hc v]
  exact hcv

/-- Claim C7 (amended): `_get_reduced_basis` is idempotent on any basis whose
rows are well behaved, and the transform from original to reduced basis is a
positive per-row rescaling — each reduced row is a positive scalar multiple
of the original row — which in general is not unimodular and does not span
the same lattice. -/
theorem get_reduced_basis_idempotent (fuel : ℕ) (B : M3R)
    (h1 : RowOk fuel B.1) (h2 : RowOk fuel B.2.1) (h3 : RowOk fuel B.2.2) :
    get_reduced_basis fuel (get_reduced_basis fuel B) = get_reduced_basis fuel B ∧
    ∃ c1 c2 c3 : ℝ, 0 < c1 ∧ 0 < c2 ∧ 0 < c3 ∧
      get_reduced_basis fuel B =
        (smulV3 c1 B.1, smulV3 c2 B.2.1, smulV3 c3 B.2.2) := by
  obtain ⟨c1, hc1, e1⟩ := get_reduced_row_scaling fuel B.1 h1
  obtain ⟨c2, hc2, e2⟩ := get_reduced_row_scaling fuel B.2.1 h2
  obtain ⟨c3, hc3, e3⟩ := get_reduced_row_scaling fuel B.2.2 h3
  constructor
  · have e : get_reduced_basis fuel (get_reduced_basis fuel B) =
        (get_reduced_row fuel (get_reduced_row fuel B.1),
         get_reduced_row fuel (get_reduced_row fuel B.2.1),
         get_reduced_row fuel (get_reduced_row fuel B.2.2)) := rfl
    rw [e, get_reduced_row_idem fuel B.1 h1, get_reduced_row_idem fuel B.2.1 h2,
      get_reduced_row_idem fuel B.2.2 h3]
    rfl
  · refine ⟨c1, c2, c3, hc1, hc2, hc3, ?_⟩
    show (get_reduced_row fuel B.1, get_reduced_row fuel B.2.1,
      get_reduced_row fuel B.2.2) = _
    rw [e1, e2, e3]

/-- Norm of the first basis row of the counterexample. -/
theorem vnorm3_two_a : vnorm3 ((2 : ℝ), 0, 0) = 2 := by
  have h : normSq3 ((2 : ℝ), 0, 0) = 4 := by norm_num [normSq3]
  rw [vnorm3, h, show (4 : ℝ) = 2 ^ 2 by norm_num,
    Real.sqrt_sq (by norm_num : (0 : ℝ) ≤ 2)]

/-- Norm of the second basis row of the counterexample. -/
theorem vnorm3_two_b : vnorm3 ((0 : ℝ), 2, 0) = 2 := by
  have h : normSq3 ((0 : ℝ), 2, 0) = 4 := by norm_num [normSq3]
  rw [vnorm3, h, show (4 : ℝ) = 2 ^ 2 by norm_num,
    Real.sqrt_sq (by norm_num : (0 : ℝ) ≤ 2)]

/-- Norm of the third basis row of the counterexample. -/
theorem vnorm3_two_c : vnorm3 ((0 : ℝ), 0, 2) = 2 := by
  have h : normSq3 ((0 : ℝ), 0, 2) = 4 := by norm_num [normSq3]
  rw [vnorm3, h, show (4 : ℝ) = 2 ^ 2 by norm_num,
    Real.sqrt_sq (by norm_num : (0 : ℝ) ≤ 2)]

/-- Unit rows of the counterexample basis. -/
theorem rowUnit_two_a : rowUnit ((2 : ℝ), 0, 0) = (1, 0, 0) := by
  rw [rowUnit, vnorm3_two_a]
  norm_num [divV3]

/-- Unit row of the second counterexample row. -/
theorem rowUnit_two_b : rowUnit ((0 : ℝ), 2, 0) = (0, 1, 0) := by
  rw [rowUnit, vnorm3_two_b]
  norm_num [divV3]

/-- Unit row of the third counterexample row. -/
theorem rowUnit_two_c : rowUnit ((0 : ℝ), 0, 2) = (0, 0, 1) := by
  rw [rowUnit, vnorm3_two_c]
  norm_num [divV3]

/-- Filtered minimum of the unit row `(1,0,0)`. -/
theorem minAbs_a : minAbsAboveTol ((1 : ℝ), 0, 0) = 1 := by
  show minRList (filterGt (1 / 1000) [|(1 : ℝ)|, |(0 : ℝ)|, |(0 : ℝ)|]) = 1
  rw [abs_one, abs_zero]
  simp only [filterGt]
  rw [if_pos (by norm_num : (1 : ℝ) / 1000 < 1),
    if_neg (by norm_num : ¬ ((1 : ℝ) / 1000 < 0)),
    if_neg (by norm_num : ¬ ((1 : ℝ) / 1000 < 0))]
  rfl

/-- Filtered minimum of the unit row `(0,1,0)`. -/
theorem minAbs_b : minAbsAboveTol ((0 : ℝ), 1, 0) = 1 := by
  show minRList (filterGt (1 / 1000) [|(0 : ℝ)|, |(1 : ℝ)|, |(0 : ℝ)|]) = 1
  rw [abs_one, abs_zero]
  simp only [filterGt]
  rw [if_neg (by norm_num : ¬ ((1 : ℝ) / 1000 < 0)),
    if_pos (by norm_num : (1 : ℝ) / 1000 < 1),
    if_neg (by norm_num : ¬ ((1 : ℝ) / 1000 < 0))]
  rfl

/-- Filtered minimum of the unit row `(0,0,1)`. -/
theorem minAbs_c : minAbsAboveTol ((0 : ℝ), 0, 1) = 1 := by
  show minRList (filterGt (1 / 1000) [|(0 : ℝ)|, |(0 : ℝ)|, |(1 : ℝ)|]) = 1
  rw [abs_one, abs_zero]
  simp only [filterGt]
  rw [if_neg (by norm_num : ¬ ((1 : ℝ) / 1000 < 0)),
    if_neg (by norm_num : ¬ ((1 : ℝ) / 1000 < 0)),
    if_pos (by norm_num : (1 : ℝ) / 1000 < 1)]
  rfl

/-- Scaled rows of the counterexample basis. -/
theorem rowScaled_two_a : rowScaled ((2 : ℝ), 0, 0) = (1, 0, 0) := by
  rw [rowScaled, rowUnit_two_a, minAbs_a]
  norm_num [divV3]

/-- Scaled second row. -/
theorem rowScaled_two_b : rowScaled ((0 : ℝ), 2, 0) = (0, 1, 0) := by
  rw [rowScaled, rowUnit_two_b, minAbs_b]
  norm_num [divV3]

/-- Scaled third row. -/
theorem rowScaled_two_c : rowScaled ((0 : ℝ), 0, 2) = (0, 0, 1) := by
  rw [rowScaled, rowUnit_two_c, minAbs_c]
  norm_num [divV3]

/-- Row gcds of the scaled counterexample rows. -/
theorem rowGcd_a : rowGcd 100 ((1 : ℝ), 0, 0) = 1 := by
  show float_gcd 100 (float_gcd 100 1 0) 0 = 1
  rw [float_gcd_one_zero 100]
  exact float_gcd_one_zero 100

/-- Row gcd of the scaled second row. -/
theorem rowGcd_b : rowGcd 100 ((0 : ℝ), 1, 0) = 1 := by
  show float_gcd 100 (float_gcd 100 0 1) 0 = 1
  have h01 : float_gcd 100 0 1 = 1 := by
    have := float_gcd_zero_one 99
    rwa [show (99 : ℕ) + 1 = 100 from rfl] at this
  rw [h01]
  exact float_gcd_one_zero 100

/-- Row gcd of the scaled third row. -/
theorem rowGcd_c : rowGcd 100 ((0 : ℝ), 0, 1) = 1 := by
  show float_gcd 100 (float_gcd 100 0 0) 1 = 1
  rw [float_gcd_zero_zero 100]
  have := float_gcd_zero_one 99
  rwa [show (99 : ℕ) + 1 = 100 from rfl] at this

/-- Reduction of the first counterexample row. -/
theorem reduced_row_a : get_reduced_row 100 ((2 : ℝ), 0, 0) = (1, 0, 0) := by
  rw [get_reduced_row, rowScaled_two_a, rowGcd_a]
  norm_num [divV3]

/-- Reduction of the second counterexample row. -/
theorem reduced_row_b : get_reduced_row 100 ((0 : ℝ), 2, 0) = (0, 1, 0) := by
  rw [get_reduced_row, rowScaled_two_b, rowGcd_b]
  norm_num [divV3]

/-- Reduction of the third counterexample row. -/
theorem reduced_row_c : get_reduced_row 100 ((0 : ℝ), 0, 2) = (0, 0, 1) := by
  rw [get_reduced_row, rowScaled_two_c, rowGcd_c]
  norm_num [divV3]

/-- The counterexample basis reduces to the identity. -/
theorem get_reduced_basis_basisEx : get_reduced_basis 100 basisEx = idM3R := by
  show (get_reduced_row 100 ((2 : ℝ), 0, 0), get_reduced_row 100 ((0 : ℝ), 2, 0),
    get_reduced_row 100 ((0 : ℝ), 0, 2)) = idM3R
  rw [reduced_row_a, reduced_row_b, reduced_row_c]
  rfl

/-- Claim C7 counterexample: reducing the basis `2 * identity` yields the
identity, so the transform from original to reduced basis has determinant
`1/8`, which is neither `1` nor `-1` — the reduction is not unimodular and
the reduced basis spans a different lattice. -/
theorem get_reduced_basis_not_unimodular :
    get_reduced_basis 100 basisEx = idM3R ∧
    reductionTransformDet 100 basisEx = 1 / 8 ∧
    (1 / 8 : ℝ) ≠ 1 ∧ (1 / 8 : ℝ) ≠ -1 := by
  refine ⟨get_reduced_basis_basisEx, ?_, by norm_num, by norm_num⟩
  rw [reductionTransformDet, get_reduced_basis_basisEx]
  have h1 : det3R idM3R = 1 := by norm_num [det3R, idM3R]
  have h2 : det3R basisEx = 8 := by norm_num [det3R, basisEx]
  rw [h1, h2]

/-- First row of the counterexample basis is well behaved. -/
theorem rowOk_basisEx_a : RowOk 100 ((2 : ℝ), 0, 0) := by
  refine ⟨by norm_num [Prod.ext_iff], ?_, ?_⟩
  · rw [rowUnit_two_a, minAbs_a]; norm_num
  · rw [rowScaled_two_a, rowGcd_a]; norm_num

/-- Second row of the counterexample basis is well behaved. -/
theorem rowOk_basisEx_b : RowOk 100 ((0 : ℝ), 2, 0) := by
  refine ⟨by norm_num [Prod.ext_iff], ?_, ?_⟩
  · rw [rowUnit_two_b, minAbs_b]; norm_num
  · rw [rowScaled_two_b, rowGcd_b]; norm_num

/-- Third row of the counterexample basis is well behaved. -/
theorem rowOk_basisEx_c : RowOk 100 ((0 : ℝ), 0, 2) := by
  refine ⟨by norm_num [Prod.ext_iff], ?_, ?_⟩
  · rw [rowUnit_two_c, minAbs_c]; norm_num
  · rw [rowScaled_two_c, rowGcd_c]; norm_num

/-- Claim C7 witness: the amended idempotence-and-scaling statement
instantiated on the concrete basis `2 * identity` with fuel 100. -/
theorem get_reduced_basis_idempotent_witness :
    RowOk 100 basisEx.1 ∧ RowOk 100 basisEx.2.1 ∧ RowOk 100 basisEx.2.2 ∧
    (get_reduced_basis 100 (get_reduced_basis 100 basisEx) =
        get_reduced_basis 100 basisEx ∧
      ∃ c1 c2 c3 : ℝ, 0 < c1 ∧ 0 < c2 ∧ 0 < c3 ∧
        get_reduced_basis 100 basisEx =
          (smulV3 c1 basisEx.1, smulV3 c2 basisEx.2.1, smulV3 c3 basisEx.2.2)) :=
  ⟨rowOk_basisEx_a, rowOk_basisEx_b, rowOk_basisEx_c,
   get_reduced_basis_idempotent 100 basisEx rowOk_basisEx_a rowOk_basisEx_b rowOk_basisEx_c⟩

/-- Claim C1: every lattice match accepted by the epitaxial lattice matcher
(modelled from the spec, as called by `_generate_interface_props`) satisfies
all three mismatch bounds when recomputed independently from its transformed
supercell vectors: area mismatch within `area_tol`, both per-axis length
mismatches within `length_tol`, angle mismatch within `angle_tol`. -/
theorem zsl_match_satisfies_tolerances (p : ZslParams) (filmB subB : B2R)
    (m : ZslMatch) (h : IsZslMatch p filmB subB m) :
    |areaB (applyT m.film_transformation filmB) /
        areaB (applyT m.substrate_transformation subB) - 1| ≤ p.area_tol ∧
    |vlen2 (applyT m.film_transformation filmB).1 /
        vlen2 (applyT m.substrate_transformation subB).1 - 1| ≤ p.length_tol ∧
    |vlen2 (applyT m.film_transformation filmB).2 /
        vlen2 (applyT m.substrate_transformation subB).2 - 1| ≤ p.length_tol ∧
    |basisAngle (applyT m.film_transformation filmB) /
        basisAngle (applyT m.substrate_transformation subB) - 1| ≤ p.angle_tol := by
  obtain ⟨-, -, -, -, hf, hs, ha, hl1, hl2, hang⟩ := h
  rw [← hf, ← hs]
  exact ⟨ha, hl1, hl2, hang⟩

/-- Claim C1 witness: the identity transforms on identity bases form an
accepted match at the default tolerances, and the recomputed mismatches are
within bounds. -/
theorem zsl_match_satisfies_tolerances_witness :
    IsZslMatch zslParamsEx idB2R idB2R zslMatchEx ∧
    (|areaB (applyT zslMatchEx.film_transformation idB2R) /
        areaB (applyT zslMatchEx.substrate_transformation idB2R) - 1| ≤ zslParamsEx.area_tol ∧
     |vlen2 (applyT zslMatchEx.film_transformation idB2R).1 /
        vlen2 (applyT zslMatchEx.substrate_transformation idB2R).1 - 1| ≤ zslParamsEx.length_tol ∧
     |vlen2 (applyT zslMatchEx.film_transformation idB2R).2 /
        vlen2 (applyT zslMatchEx.substrate_transformation idB2R).2 - 1| ≤ zslParamsEx.length_tol ∧
     |basisAngle (applyT zslMatchEx.film_transformation idB2R) /
        basisAngle (applyT zslMatchEx.substrate_transformation idB2R) - 1| ≤ zslParamsEx.angle_tol) := by
  have harea : areaB idB2R = 1 := by norm_num [areaB, idB2R]
  have hl1 : vlen2 idB2R.1 = 1 := by norm_num [vlen2, idB2R, Real.sqrt_one]
  have hl2 : vlen2 idB2R.2 = 1 := by norm_num [vlen2, idB2R, Real.sqrt_one]
  have hangle : basisAngle idB2R = Real.pi / 2 := by
    have : (idB2R.1.1 * idB2R.2.1 + idB2R.1.2 * idB2R.2.2) / (vlen2 idB2R.1 * vlen2 idB2R.2)
        = 0 := by rw [hl1, hl2]; norm_num [idB2R]
    rw [basisAngle, this, Real.arccos_zero]
  have happ : applyT idT22 idB2R = idB2R := by
    simp only [applyT, idT22, idB2R, Prod.ext_iff]
    norm_num
  have h : IsZslMatch zslParamsEx idB2R idB2R zslMatchEx := by
    refine ⟨by decide, ?_, by decide, ?_, happ.symm, happ.symm, ?_, ?_, ?_, ?_⟩
    · rw [show detT zslMatchEx.film_transformation = 1 by decide, harea]
      norm_num [zslParamsEx]
    · rw [show detT zslMatchEx.substrate_transformation = 1 by decide, harea]
      norm_num [zslParamsEx]
    · show |areaB idB2R / areaB idB2R - 1| ≤ zslParamsEx.area_tol
      rw [harea]; norm_num [zslParamsEx]
    · show |vlen2 idB2R.1 / vlen2 idB2R.1 - 1| ≤ zslParamsEx.length_tol
      rw [hl1]; norm_num [zslParamsEx]
    · show |vlen2 idB2R.2 / vlen2 idB2R.2 - 1| ≤ zslParamsEx.length_tol
      rw [hl2]; norm_num [zslParamsEx]
    · show |basisAngle idB2R / basisAngle idB2R - 1| ≤ zslParamsEx.angle_tol
      rw [hangle, div_self (by positivity : Real.pi / 2 ≠ 0)]
      norm_num [zslParamsEx]
  exact ⟨h, zsl_match_satisfies_tolerances zslParamsEx idB2R idB2R zslMatchEx h⟩

/-- Claim C2: when the matcher finds zero matches — in particular whenever
`max_area` is smaller than either primitive cell's in-plane area, which
forces the match list to be empty — `_generate_interface_props` returns the
distinguished `None` result and `InterfaceGenerator.__init__` completes with
`interface_output = None` and no derived fields, rather than raising. -/
theorem no_match_yields_none (p : ZslParams) (filmB subB : B2R) (ml : List ZslMatch)
    (hsound : ∀ m ∈ ml, IsZslMatch p filmB subB m)
    (hfilm : 0 < areaB filmB) (hsub : 0 < areaB subB)
    (hmax : p.max_area < areaB filmB ∨ p.max_area < areaB subB) :
    ml = [] ∧ (interface_generator_init ml).interface_output = none ∧
    (interface_generator_init ml).match_area = none := by
  have hempty : ml = [] := by
    rw [List.eq_nil_iff_forall_not_mem]
    intro m hm
    obtain ⟨hdf, hdf2, hds, hds2, -, -, -, -, -, -⟩ := hsound m hm
    rcases hmax with hmax | hmax
    · have h1 : (1 : ℝ) ≤ (|detT m.film_transformation| : ℝ) := by exact_mod_cast hdf
      have h2 : p.max_area / areaB filmB < 1 := (div_lt_one hfilm).mpr hmax
      linarith
    · have h1 : (1 : ℝ) ≤ (|detT m.substrate_transformation| : ℝ) := by exact_mod_cast hds
      have h2 : p.max_area / areaB subB < 1 := (div_lt_one hsub).mpr hmax
      linarith
  subst hempty
  exact ⟨rfl, rfl, rfl⟩

/-- Claim C2 witness: with `max_area = 1/2` below the unit primitive areas,
the (necessarily empty) match list makes construction complete with a `None`
interface output. -/
theorem no_match_yields_none_witness :
    (∀ m ∈ ([] : List ZslMatch), IsZslMatch zslParamsSmall idB2R idB2R m) ∧
    0 < areaB idB2R ∧
    (zslParamsSmall.max_area < areaB idB2R ∨ zslParamsSmall.max_area < areaB idB2R) ∧
    (([] : List ZslMatch) = [] ∧
      (interface_generator_init []).interface_output = none ∧
      (interface_generator_init []).match_area = none) := by
  have harea : areaB idB2R = 1 := by norm_num [areaB, idB2R]
  have hpos : 0 < areaB idB2R := by rw [harea]; norm_num
  have hlt : zslParamsSmall.max_area < areaB idB2R := by
    rw [harea]; norm_num [zslParamsSmall]
  have hnil : ∀ m ∈ ([] : List ZslMatch), IsZslMatch zslParamsSmall idB2R idB2R m :=
    fun m hm => absurd hm (List.not_mem_nil m)
  exact ⟨hnil, hpos, Or.inl hlt,
    no_match_yields_none zslParamsSmall idB2R idB2R [] hnil hpos hpos (Or.inl hlt)⟩

/-- The interface state is fully restored after one shift/unshift pair. -/
theorem get_shifted_atoms_state {σ : Type} (shifts : List (ℚ × ℚ))
    (s : InterfaceState σ) : (get_shifted_atoms shifts s).2 = s := by
  induction shifts generalizing s with
  | nil => rfl
  | cons sh rest ih =>
      show (get_shifted_atoms rest
        (shift_film_inplane (-sh.1) (-sh.2) (shift_film_inplane sh.1 sh.2 s))).2 = s
      rw [show shift_film_inplane (-sh.1) (-sh.2) (shift_film_inplane sh.1 sh.2 s) = s by
        obtain ⟨f, sub, ⟨p1, p2⟩⟩ := s
        simp [shift_film_inplane]]
      exact ih s

/-- Claim C6: computing the shifted-structure list leaves the stored
interface unchanged — every applied in-plane film shift is undone by its
negation, so both the film shift and the whole caller-visible matcher state
are restored after `_get_shifted_atoms` returns. -/
theorem get_shifted_atoms_preserves_interface {σ : Type} (shifts : List (ℚ × ℚ))
    (m : MatcherState σ) :
    (matcher_get_shifted_atoms shifts m).2.held_interface.film_shift =
      m.held_interface.film_shift ∧
    (matcher_get_shifted_atoms shifts m).2 = m := by
  have h : (matcher_get_shifted_atoms shifts m).2 = m := by
    show ({ m with held_interface := (get_shifted_atoms shifts m.held_interface).2 }
        : MatcherState σ) = m
    rw [get_shifted_atoms_state]
  exact ⟨by rw [h], h⟩

/-- Claim C9: after `IonicSurfaceMatcher.__init__`, `sub_part` and
`film_part` hold the same object — the interface's orthogonal film
structure — and none of the class's operations ever reassigns `sub_part`
(in particular the substrate's structure is never assigned to it). -/
theorem sub_part_equals_film_part {σ : Type} (iface : InterfaceState σ)
    (shifts : List (ℚ × ℚ)) (m : MatcherState σ) :
    (ionic_surface_matcher_init iface).sub_part =
      (ionic_surface_matcher_init iface).film_part ∧
    (ionic_surface_matcher_init iface).sub_part = iface.orthogonal_film_structure ∧
    (get_optmized_structure m).sub_part = m.sub_part ∧
    (matcher_get_shifted_atoms shifts m).2.sub_part = m.sub_part ∧
    (run_surface_matching shifts m).sub_part = m.sub_part := by
  refine ⟨rfl, rfl, rfl, rfl, rfl⟩

/-- Claim C10: with `generate_all = False`, the slab-generation step
produces exactly one surface, built from the first entry of the computed
possible termination shifts; with `generate_all = True`, it produces one
surface per slab enumerated by `get_slabs` (one per termination). -/
theorem generate_slabs_termination_count {β γ : Type} (get_slabs_result : List β)
    (get_slab : ℚ → β) (possible_shifts : List ℚ) (surface_of : β → γ)
    (hps : possible_shifts ≠ []) :
    generate_slabs false get_slabs_result get_slab possible_shifts surface_of =
      [surface_of (get_slab (possible_shifts.head hps))] ∧
    (generate_slabs true get_slabs_result get_slab possible_shifts surface_of).length =
      get_slabs_result.length := by
  constructor
  · cases possible_shifts with
    | nil => exact absurd rfl hps
    | cons a t => simp [generate_slabs]
  · simp [generate_slabs]

/-- Claim C10 witness: concrete instantiation with one possible shift, a
two-slab `get_slabs` result, and simple slab/surface constructors. -/
theorem generate_slabs_termination_count_witness :
    ((0 : ℚ) :: [] ≠ ([] : List ℚ)) ∧
    generate_slabs false [5, 6] slabOfW ((0 : ℚ) :: []) surfaceOfW =
      [surfaceOfW (slabOfW 0)] ∧
    (generate_slabs true [5, 6] slabOfW ((0 : ℚ) :: []) surfaceOfW).length = 2 := by
  have h := generate_slabs_termination_count [5, 6] slabOfW ((0 : ℚ) :: []) surfaceOfW
    (by simp)
  exact ⟨by simp, by simpa using h.1, by simpa using h.2⟩

/-- An element returned by `firstMatch` is a member of the scanned group. -/
theorem firstMatch_mem {α : Type} (g : List α) (r : List Bool) (y : α)
    (h : firstMatch g r = some y) : y ∈ g := by
  induction g generalizing r with
  | nil => simp [firstMatch] at h
  | cons a as ih =>
      cases r with
      | nil => simp [firstMatch] at h
      | cons b bs =>
          cases b with
          | true =>
              simp only [firstMatch, if_pos] at h
              simp only [Option.some.injEq] at h
              simp [h]
          | false =>
              simp only [firstMatch, Bool.false_eq_true, if_neg, not_false_iff] at h
              exact List.mem_cons_of_mem a (ih bs h)

/-- On an equality row built by mapping a predicate over the group itself,
`firstMatch` is `find?`. -/
theorem firstMatch_map {α : Type} (g : List α) (p : α → Bool) :
    firstMatch g (g.map p) = g.find? p := by
  induction g with
  | nil => rfl
  | cons a as ih =>
      simp only [List.map_cons, firstMatch]
      cases hpa : p a with
      | true => simp [List.find?, hpa]
      | false => simp [List.find?, hpa, ih]

/-- Everything returned by `_find_exact_matches` comes from the group. -/
theorem find_exact_matches_subset {α K : Type} [DecidableEq K] (key : α → K)
    (g : List α) (y : α) (h : y ∈ find_exact_matches key g) : y ∈ g := by
  obtain ⟨r, _, hfm⟩ := List.mem_filterMap.mp h
  exact firstMatch_mem g r y hfm

/-- Every group member has a key representative among the exact-match
survivors. -/
theorem find_exact_matches_exists {α K : Type} [DecidableEq K] (key : α → K)
    (g : List α) (x : α) (hx : x ∈ g) :
    ∃ y ∈ find_exact_matches key g, key y = key x := by
  have hrow : eqRow key g x ∈ (g.map (eqRow key g)).dedup :=
    List.mem_dedup.mpr (List.mem_map_of_mem _ hx)
  have hrow2 : eqRow key g x ∈ uniqueRows key g :=
    ((List.perm_insertionSort _ _).mem_iff).mpr hrow
  have hsome : (g.find? (fun b => decide (key x = key b))).isSome :=
    List.find?_isSome.mpr ⟨x, hx, by simp⟩
  obtain ⟨y, hy⟩ := Option.isSome_iff_exists.mp hsome
  refine ⟨y, List.mem_filterMap.mpr ⟨eqRow key g x, hrow2, ?_⟩, ?_⟩
  · simp only [eqRow]
    rw [firstMatch_map]
    exact hy
  · have := List.find?_some hy
    simpa using (of_decide_eq_true this).symm

/-- Everything surviving the per-size-group exact-match reduction comes from
the input list. -/
theorem after_exact_subset {α K : Type} [DecidableEq K] (size : α → ℕ)
    (key : α → K) (xs : List α) (y : α) (h : y ∈ after_exact size key xs) :
    y ∈ xs := by
  simp only [after_exact, List.mem_flatten] at h
  obtain ⟨gl, hgl, hy⟩ := h
  obtain ⟨g, hg, rfl⟩ := List.mem_map.mp hgl
  have hyg := find_exact_matches_subset key g y hy
  simp only [sizeGroups, List.mem_map] at hg
  obtain ⟨s, _, rfl⟩ := hg
  exact (List.mem_filter.mp hyg).1

/-- Every input element has a key representative after the per-size-group
exact-match reduction. -/
theorem after_exact_exists {α K : Type} [DecidableEq K] (size : α → ℕ)
    (key : α → K) (xs : List α) (x : α) (hx : x ∈ xs) :
    ∃ y ∈ after_exact size key xs, key y = key x := by
  have hsize : size x ∈ sizesSorted size xs :=
    ((List.perm_insertionSort _ _).mem_iff).mpr
      (List.mem_dedup.mpr (List.mem_map_of_mem _ hx))
  have hgroup : xs.filter (fun z => decide (size z = size x)) ∈ sizeGroups size xs :=
    List.mem_map_of_mem _ hsize
  have hxg : x ∈ xs.filter (fun z => decide (size z = size x)) :=
    List.mem_filter.mpr ⟨hx, by simp⟩
  obtain ⟨y, hy, hkey⟩ := find_exact_matches_exists key _ x hxg
  refine ⟨y, ?_, hkey⟩
  simp only [after_exact, List.mem_flatten]
  exact ⟨find_exact_matches key _, List.mem_map_of_mem _ hgroup, hy⟩

/-- The `StructureMatcher` deduplication only keeps input elements. -/
theorem keep_unique_subset {α : Type} (eqv : α → α → Bool) :
    ∀ (l : List α) (y : α), y ∈ keep_unique eqv l → y ∈ l := by
  intro l
  induction l with
  | nil => intro y hy; simp [keep_unique] at hy
  | cons x rest ih =>
      intro y hy
      cases hany : rest.any (fun z => eqv x z) with
      | true =>
          simp only [keep_unique, hany, if_pos] at hy
          exact List.mem_cons_of_mem x (ih y hy)
      | false =>
          simp only [keep_unique, hany, Bool.false_eq_true, if_neg, not_false_iff,
            List.mem_cons] at hy
          rcases hy with rfl | hy
          · exact List.mem_cons_self _ _
          · exact List.mem_cons_of_mem x (ih y hy)

/-- No two elements kept by the `StructureMatcher` deduplication are
equivalent. -/
theorem keep_unique_pairwise {α : Type} (eqv : α → α → Bool) (l : List α) :
    (keep_unique eqv l).Pairwise (fun a b => eqv a b = false) := by
  induction l with
  | nil => simp [keep_unique]
  | cons x rest ih =>
      cases hany : rest.any (fun z => eqv x z) with
      | true => simpa [keep_unique, hany] using ih
      | false =>
          simp only [keep_unique, hany, Bool.false_eq_true, if_neg, not_false_iff]
          refine List.Pairwise.cons ?_ ih
          intro z hz
          have hzr := keep_unique_subset eqv rest z hz
          have hall := List.any_eq_false.mp hany
          have := hall z hzr
          simpa using this

/-- Every element of the deduplication input has an equivalent element among
the kept ones (the largest-index member of its class survives). -/
theorem keep_unique_exists {α : Type} (eqv : α → α → Bool)
    (hrefl : ∀ a, eqv a a = true)
    (htrans : ∀ a b c, eqv a b = true → eqv b c = true → eqv a c = true) :
    ∀ (l : List α) (x : α), x ∈ l → ∃ z ∈ keep_unique eqv l, eqv x z = true := by
  intro l
  induction l with
  | nil => intro x hx; simp at hx
  | cons a rest ih =>
      intro x hx
      have hsub : ∀ z ∈ keep_unique eqv rest, z ∈ keep_unique eqv (a :: rest) := by
        intro z hz
        cases hany : rest.any (fun y => eqv a y) <;> simp [keep_unique, hany, hz]
      rcases List.mem_cons.mp hx with rfl | hxr
      · cases hany : rest.any (fun y => eqv x y) with
        | false =>
            refine ⟨x, ?_, hrefl x⟩
            simp [keep_unique, hany]
        | true =>
            obtain ⟨y, hy, hxy⟩ := List.any_eq_true.mp hany
            obtain ⟨z, hz, hyz⟩ := ih y hy
            exact ⟨z, hsub z hz, htrans x y z hxy hyz⟩
      · obtain ⟨z, hz, hxz⟩ := ih x hxr
        exact ⟨z, hsub z hz, hxz⟩

/-- A list in which no two elements are equivalent contains at most one
element equivalent to any fixed `x`. -/
theorem pairwise_countP_le_one {α : Type} (eqv : α → α → Bool)
    (hsymm : ∀ a b, eqv a b = eqv b a)
    (htrans : ∀ a b c, eqv a b = true → eqv b c = true → eqv a c = true)
    (x : α) :
    ∀ l : List α, l.Pairwise (fun a b => eqv a b = false) →
      l.countP (fun z => eqv x z) ≤ 1 := by
  intro l
  induction l with
  | nil => intro _; simp
  | cons a t ih =>
      intro hpw
      rw [List.countP_cons]
      cases hxa : eqv x a with
      | false => simpa [hxa] using ih hpw.of_cons
      | true =>
          have hzero : t.countP (fun z => eqv x z) = 0 := by
            rw [List.countP_eq_zero]
            intro z hz hxz
            have hax : eqv a x = true := by rw [hsymm]; exact hxa
            have haz : eqv a z = true := htrans a x z hax (by simpa using hxz)
            have := (List.pairwise_cons.mp hpw).1 z hz
            rw [this] at haz
            exact Bool.false_ne_true haz
          simp [hzero, hxa]

/-- Claim C3: the deduplication stage of `generate_interfaces` returns
exactly one representative of every equivalence class (under the
structure-matcher equivalence, which subsumes exact coordinate/species
matches): no two returned interfaces are equivalent, and every generated
interface is equivalent to exactly one returned interface. -/
theorem generate_interfaces_unique {α K : Type} [DecidableEq K]
    (size : α → ℕ) (key : α → K) (eqv : α → α → Bool) (area : α → ℚ)
    (xs : List α)
    (hrefl : ∀ a, eqv a a = true)
    (hsymm : ∀ a b, eqv a b = eqv b a)
    (htrans : ∀ a b c, eqv a b = true → eqv b c = true → eqv a c = true)
    (hexact : ∀ a b, key a = key b → eqv a b = true) :
    (generate_interfaces size key eqv area xs).Pairwise (fun a b => eqv a b = false) ∧
    ∀ x ∈ xs, (generate_interfaces size key eqv area xs).countP (fun z => eqv x z) = 1 := by
  have hperm : (generate_interfaces size key eqv area xs).Perm
      (keep_unique eqv (after_exact size key xs)) :=
    List.perm_insertionSort _ _
  have hpw : (generate_interfaces size key eqv area xs).Pairwise
      (fun a b => eqv a b = false) := by
    refine (hperm.pairwise_iff (fun {a b} h => ?_)).mpr (keep_unique_pairwise eqv _)
    rw [hsymm]; exact h
  refine ⟨hpw, fun x hx => ?_⟩
  obtain ⟨y, hy, hkey⟩ := after_exact_exists size key xs x hx
  obtain ⟨z, hz, hyz⟩ := keep_unique_exists eqv hrefl htrans _ y hy
  have hxz : eqv x z = true := htrans x y z (hexact x y hkey.symm) hyz
  have hmem : z ∈ generate_interfaces size key eqv area xs := hperm.mem_iff.mpr hz
  have hge : 0 < (generate_interfaces size key eqv area xs).countP (fun z => eqv x z) :=
    List.countP_pos_iff.mpr ⟨z, hmem, hxz⟩
  have hle := pairwise_countP_le_one eqv hsymm htrans x _ hpw
  omega

/-- Claim C3 witness: four synthetic interfaces with equivalence given by
parity; the pipeline keeps exactly one representative per parity class. -/
theorem generate_interfaces_unique_witness :
    (∀ a : Fin 4, eqvW a a = true) ∧
    (∀ a b : Fin 4, eqvW a b = eqvW b a) ∧
    (∀ a b c : Fin 4, eqvW a b = true → eqvW b c = true → eqvW a c = true) ∧
    (∀ a b : Fin 4, keyW a = keyW b → eqvW a b = true) ∧
    ((generate_interfaces sizeW keyW eqvW areaW xsW).Pairwise
        (fun a b => eqvW a b = false) ∧
      ∀ x ∈ xsW, (generate_interfaces sizeW keyW eqvW areaW xsW).countP
        (fun z => eqvW x z) = 1) :=
  ⟨by decide, by decide, by decide, by decide,
   generate_interfaces_unique sizeW keyW eqvW areaW xsW
     (by decide) (by decide) (by decide) (by decide)⟩

/-- Claim C4 counterexample: two synthetic interfaces with equal areas but
decreasing max linear strain magnitude; `generate_interfaces` returns them
adjacent in an order that violates the composite
(area, max strain, angle strain) key, because the source sorts by area
only. -/
theorem generate_interfaces_not_composite_sorted :
    generate_interfaces sizeX keyX eqvX areaX xsX = [0, 1] ∧
    ¬ composite_key_le areaX strainX angleStrainX 0 1 := by
  constructor
  · decide
  · unfold composite_key_le
    decide

/-- Claim C4 (amended): the list returned by the deduplication stage of
`generate_interfaces` is sorted ascending by area (the `np.argsort` key);
equal-area ties carry no further ordering by strain. -/
theorem generate_interfaces_sorted_by_area {α K : Type} [DecidableEq K]
    (size : α → ℕ) (key : α → K) (eqv : α → α → Bool) (area : α → ℚ)
    (xs : List α) :
    (generate_interfaces size key eqv area xs).Sorted
      (fun a b => area a ≤ area b) := by
  letI : IsTotal α (fun a b => area a ≤ area b) := ⟨fun a b => le_total (area a) (area b)⟩
  letI : IsTrans α (fun a b => area a ≤ area b) := ⟨fun a b c hab hbc => le_trans hab hbc⟩
  exact List.sorted_insertionSort _ _

/-- Claim C8: for every match list, the exposed per-axis linear strain of
each match equals the corresponding film supercell vector length divided by
the corresponding substrate supercell vector length minus one, and the
exposed angle strain equals the film basis interior angle divided by the
substrate basis interior angle minus one. -/
theorem strain_and_angle_match_spec (ms : List MatchVectors) :
    get_strain ms = ms.map spec_linear_strain ∧
    get_angle_diff ms = ms.map spec_angle_strain := by
  constructor
  · induction ms with
    | nil => rfl
    | cons m t ih =>
        simp only [get_strain, film_norms, sub_norms, List.map_cons, List.zipWith_cons_cons,
          spec_linear_strain]
        exact congrArg _ ih
  · induction ms with
    | nil => rfl
    | cons m t ih =>
        simp only [get_angle_diff, List.map_cons, List.zipWith_cons_cons, spec_angle_strain]
        exact congrArg _ ih

end OgreInterface
